import Mathlib

/-!
Verification of the order-matching engine in stockMarket.cpp.

The source keeps, for each of NUM_TICKERS instruments, one buy side and one
sell side. A side is a fixed-capacity struct of parallel arrays
(orderId, quantity, price, active) plus an insertion counter. We embed a
side as total functions from slot index to field value together with the
counter; an array store arr[i] = v becomes a pointwise function update.
C++ int becomes Int, double becomes the rationals (the program only ever
copies and compares prices, so the embedding is exact on every price the
claims mention), and std::atomic fields become plain values since every
claim is settled on the sequential semantics of the operations.
-/

namespace StockMarket

/-- Capacity of one side of one instrument's book (MAX_ORDERS_PER_SIDE). -/
def MAX_ORDERS_PER_SIDE : Nat := 1000

/-- Number of instruments (NUM_TICKERS). -/
def NUM_TICKERS : Nat := 1024

/-- Order side tag, enum OrderType { BUY, SELL } in the source. -/
inductive OrderType
  | BUY
  | SELL
deriving DecidableEq

/-- Pointwise array update: the store arr[i] = v on a C array cell. -/
def upd {α : Type} (f : Nat → α) (i : Nat) (v : α) : Nat → α :=
  fun j => if j = i then v else f j

/-- One side of a book: struct OrderSide, parallel arrays plus counter. -/
structure OrderSide where
  orderId : Nat → Int
  quantity : Nat → Int
  price : Nat → ℚ
  active : Nat → Bool
  count : Nat

/-- The OrderSide constructor: count 0, every slot inactive with quantity 0.
The source leaves orderId and price uninitialized; we pick 0 (no claim
reads a slot before it is published). -/
def OrderSide.init : OrderSide :=
  { orderId := fun _ => 0
    quantity := fun _ => 0
    price := fun _ => 0
    active := fun _ => false
    count := 0 }

/-- struct OrderBook: one buy side and one sell side. -/
structure OrderBook where
  buy : OrderSide
  sell : OrderSide

/-- A book as at process start: both sides empty. -/
def OrderBook.init : OrderBook := ⟨OrderSide.init, OrderSide.init⟩

/-- Outcome of a submission: the source either publishes the slot or prints
a book-full message and drops the order; the spec names these OrderId and
Rejected(BookFull). -/
inductive AddResult
  | ok
  | bookFull
deriving DecidableEq

/-- Body of one branch of addOrder, acting on the chosen side: reserve
idx = count++ unconditionally, then publish the four fields iff
idx < MAX_ORDERS_PER_SIDE, else drop the order (book full). -/
def addOrderSide (s : OrderSide) (oid q : Int) (p : ℚ) : OrderSide × AddResult :=
  let idx := s.count
  if idx < MAX_ORDERS_PER_SIDE then
    ({ s with
        orderId := upd s.orderId idx oid
        quantity := upd s.quantity idx q
        price := upd s.price idx p
        active := upd s.active idx true
        count := s.count + 1 }, AddResult.ok)
  else
    ({ s with count := s.count + 1 }, AddResult.bookFull)

/-- Global mutable state: orderBooks array plus the global order id. -/
structure MarketState where
  orderBooks : Nat → OrderBook
  globalOrderId : Int

/-- Process-start state: every book empty, globalOrderId 0. -/
def MarketState.init : MarketState := ⟨fun _ => OrderBook.init, 0⟩

/-- addOrder(type, ticker, quantity, price): always consumes a fresh global
order id, then delegates to the chosen side of the ticker's book. The
source performs no validation of ticker, quantity or price. -/
def addOrder (st : MarketState) (type : OrderType) (ticker : Nat)
    (quantity : Int) (price : ℚ) : MarketState × AddResult :=
  let oid := st.globalOrderId
  let st1 : MarketState := { st with globalOrderId := st.globalOrderId + 1 }
  match type with
  | OrderType.BUY =>
      let r := addOrderSide (st1.orderBooks ticker).buy oid quantity price
      let ob : OrderBook := { st1.orderBooks ticker with buy := r.1 }
      ({ st1 with orderBooks := upd st1.orderBooks ticker ob }, r.2)
  | OrderType.SELL =>
      let r := addOrderSide (st1.orderBooks ticker).sell oid quantity price
      let ob : OrderBook := { st1.orderBooks ticker with sell := r.1 }
      ({ st1 with orderBooks := upd st1.orderBooks ticker ob }, r.2)

/-- The trade record printed by matchOrder: quantity, execution price
(bestSellPrice), buy order id, sell order id. The instrument id is the
ticker matchOrder was called with. -/
structure Trade where
  quantity : Int
  price : ℚ
  buyOrderId : Int
  sellOrderId : Int
deriving DecidableEq

/-- The buy-side scan of matchOrder after n iterations: starting from
bestBuyIndex = -1, bestBuyPrice = -1.0, slot i is taken when
active[i] and quantity[i] > 0 and price[i] > bestBuyPrice. Index n-1 is
examined last, exactly as the loop for i = 0 .. n-1 does. -/
def buyScanAux (s : OrderSide) : Nat → Int × ℚ
  | 0 => (-1, -1)
  | n + 1 =>
      let best := buyScanAux s n
      if s.active n = true ∧ 0 < s.quantity n ∧ best.2 < s.price n then
        ((n : Int), s.price n)
      else best

/-- Result (bestBuyIndex, bestBuyPrice) of the full buy-side scan. -/
def buyScan (s : OrderSide) : Int × ℚ := buyScanAux s s.count

/-- The sell-side scan of matchOrder after n iterations: starting from
bestSellIndex = -1, bestSellPrice = 1e9, slot i is taken when
active[i] and quantity[i] > 0 and price[i] < bestSellPrice. -/
def sellScanAux (s : OrderSide) : Nat → Int × ℚ
  | 0 => (-1, 1000000000)
  | n + 1 =>
      let best := sellScanAux s n
      if s.active n = true ∧ 0 < s.quantity n ∧ s.price n < best.2 then
        ((n : Int), s.price n)
      else best

/-- Result (bestSellIndex, bestSellPrice) of the full sell-side scan. -/
def sellScan (s : OrderSide) : Int × ℚ := sellScanAux s s.count

/-- Body of matchOrder on one book: scan both sides; if both scans found a
candidate and bestBuyPrice >= bestSellPrice, trade
min(buy quantity, sell quantity) at bestSellPrice, subtract it from both
slots, deactivate any slot whose quantity is now zero, and emit the trade;
otherwise leave the book untouched and emit nothing. -/
def matchOrderBook (ob : OrderBook) : OrderBook × Option Trade :=
  let bb := buyScan ob.buy
  let bs := sellScan ob.sell
  if bb.1 ≠ -1 ∧ bs.1 ≠ -1 ∧ bb.2 ≥ bs.2 then
    let bi := bb.1.toNat
    let si := bs.1.toNat
    let tradeQuantity := min (ob.buy.quantity bi) (ob.sell.quantity si)
    let buyQ := ob.buy.quantity bi - tradeQuantity
    let sellQ := ob.sell.quantity si - tradeQuantity
    let buySide : OrderSide :=
      { ob.buy with
          quantity := upd ob.buy.quantity bi buyQ
          active := if buyQ = 0 then upd ob.buy.active bi false else ob.buy.active }
    let sellSide : OrderSide :=
      { ob.sell with
          quantity := upd ob.sell.quantity si sellQ
          active := if sellQ = 0 then upd ob.sell.active si false else ob.sell.active }
    (⟨buySide, sellSide⟩,
      some ⟨tradeQuantity, bs.2, ob.buy.orderId bi, ob.sell.orderId si⟩)
  else
    (ob, none)

/-- matchOrder(ticker): run the book-level match on orderBooks[ticker]. -/
def matchOrder (st : MarketState) (ticker : Nat) : MarketState × Option Trade :=
  let r := matchOrderBook (st.orderBooks ticker)
  ({ st with orderBooks := upd st.orderBooks ticker r.1 }, r.2)

/-- One operation on a single instrument's book: a buy submission, a sell
submission (the two branches of addOrder), or one matchOrder cycle. -/
inductive BookOp
  | addBuy (q : Int) (p : ℚ)
  | addSell (q : Int) (p : ℚ)
  | matchB
deriving DecidableEq

/-- Observables of a run: final book, next global order id, the trades
emitted (in order), the per-submission results (in order), and the total
quantity of submissions rejected for a full book. -/
structure RunOut where
  book : OrderBook
  nextId : Int
  trades : List Trade
  results : List AddResult
  rejectedQty : Int

/-- Run a sequence of operations against one instrument's book, starting
with global order id nid, collecting all observables. -/
def run (b : OrderBook) (nid : Int) : List BookOp → RunOut
  | [] => ⟨b, nid, [], [], 0⟩
  | BookOp.addBuy q p :: ops =>
      let r := addOrderSide b.buy nid q p
      let out := run { b with buy := r.1 } (nid + 1) ops
      { out with
          results := r.2 :: out.results
          rejectedQty := (if r.2 = AddResult.bookFull then q else 0) + out.rejectedQty }
  | BookOp.addSell q p :: ops =>
      let r := addOrderSide b.sell nid q p
      let out := run { b with sell := r.1 } (nid + 1) ops
      { out with
          results := r.2 :: out.results
          rejectedQty := (if r.2 = AddResult.bookFull then q else 0) + out.rejectedQty }
  | BookOp.matchB :: ops =>
      let r := matchOrderBook b
      let out := run r.1 nid ops
      { out with trades := r.2.toList ++ out.trades }

/-- Total quantity submitted by a sequence of operations (accepted or not). -/
def submittedQty : List BookOp → Int
  | [] => 0
  | BookOp.addBuy q _ :: ops => q + submittedQty ops
  | BookOp.addSell q _ :: ops => q + submittedQty ops
  | BookOp.matchB :: ops => submittedQty ops

/-- Every submission in the sequence has positive quantity (the caller
contract of submit). -/
def opPos : BookOp → Prop
  | BookOp.addBuy q _ => 0 < q
  | BookOp.addSell q _ => 0 < q
  | BookOp.matchB => True

instance : DecidablePred opPos := fun op => by
  cases op <;> simp [opPos] <;> infer_instance

/-- Sum of the quantity fields of a list of trades. -/
def tradedSum (ts : List Trade) : Int := (ts.map Trade.quantity).sum

/-- Sum of the quantity of every reserved slot of a side. -/
def totalQty (s : OrderSide) : Int :=
  (Finset.range s.count).sum fun i => s.quantity i

/-- Sum of the remaining quantity of the active orders of a side. -/
def activeQty (s : OrderSide) : Int :=
  (Finset.range s.count).sum fun i => if s.active i = true then s.quantity i else 0

/-! ### Characterization of the two scans -/

/-- A slot that a scan may consider: active with positive quantity. -/
def liveAt (s : OrderSide) (i : Nat) : Prop :=
  s.active i = true ∧ 0 < s.quantity i

instance (s : OrderSide) (i : Nat) : Decidable (liveAt s i) := by
  unfold liveAt; infer_instance

/-- The buy scan either finds nothing, in which case every live slot in
range is priced at most the initial bestBuyPrice of -1, or it returns the
earliest live slot of maximal price among those priced above -1. -/
theorem buyScanAux_spec (s : OrderSide) (n : Nat) :
    (buyScanAux s n = (-1, -1) ∧ ∀ j, j < n → liveAt s j → s.price j ≤ -1) ∨
    (∃ i, i < n ∧ buyScanAux s n = ((i : Int), s.price i) ∧ liveAt s i ∧
      -1 < s.price i ∧
      (∀ j, j < n → liveAt s j → s.price j ≤ s.price i) ∧
      (∀ j, j < n → liveAt s j → s.price j = s.price i → i ≤ j)) := by
  induction n with
  | zero =>
      left
      exact ⟨rfl, fun j hj _ => absurd hj (Nat.not_lt_zero j)⟩
  | succ n ih =>
      by_cases hc : s.active n = true ∧ 0 < s.quantity n ∧ (buyScanAux s n).2 < s.price n
      · have hstep : buyScanAux s (n + 1) = ((n : Int), s.price n) := by
          simp only [buyScanAux]
          rw [if_pos hc]
        have hinit : (-1 : ℚ) ≤ (buyScanAux s n).2 := by
          rcases ih with ⟨heq, _⟩ | ⟨i, _, heq, _, hgt, _, _⟩
          · rw [heq]
          · rw [heq]; exact le_of_lt hgt
        have hprev : ∀ j, j < n → liveAt s j → s.price j < s.price n := by
          intro j hj hl
          rcases ih with ⟨heq, hall⟩ | ⟨i, _, heq, _, _, hmax, _⟩
          · have h1 := hall j hj hl
            have h2 : (buyScanAux s n).2 = -1 := by rw [heq]
            exact lt_of_le_of_lt h1 (h2 ▸ hc.2.2)
          · have h1 := hmax j hj hl
            have h2 : (buyScanAux s n).2 = s.price i := by rw [heq]
            exact lt_of_le_of_lt h1 (h2 ▸ hc.2.2)
        right
        refine ⟨n, Nat.lt_succ_self n, hstep, ⟨hc.1, hc.2.1⟩,
          lt_of_le_of_lt hinit hc.2.2, ?_, ?_⟩
        · intro j hj hl
          rcases Nat.lt_succ_iff_lt_or_eq.mp hj with h | h
          · exact le_of_lt (hprev j h hl)
          · subst h; exact le_refl _
        · intro j hj hl hpe
          rcases Nat.lt_succ_iff_lt_or_eq.mp hj with h | h
          · exact absurd hpe (ne_of_lt (hprev j h hl))
          · exact Nat.le_of_eq h.symm
      · have hstep : buyScanAux s (n + 1) = buyScanAux s n := by
          simp only [buyScanAux]
          rw [if_neg hc]
        have hnot : liveAt s n → ¬ (buyScanAux s n).2 < s.price n :=
          fun hl h => hc ⟨hl.1, hl.2, h⟩
        rcases ih with ⟨heq, hall⟩ | ⟨i, hi, heq, hlive, hgt, hmax, hmin⟩
        · left
          refine ⟨hstep.trans heq, ?_⟩
          intro j hj hl
          rcases Nat.lt_succ_iff_lt_or_eq.mp hj with h | h
          · exact hall j h hl
          · subst h
            have h2 : (buyScanAux s j).2 = -1 := by rw [heq]
            exact le_of_not_lt (h2 ▸ hnot hl)
        · right
          refine ⟨i, Nat.lt_succ_of_lt hi, hstep.trans heq, hlive, hgt, ?_, ?_⟩
          · intro j hj hl
            rcases Nat.lt_succ_iff_lt_or_eq.mp hj with h | h
            · exact hmax j h hl
            · subst h
              have h2 : (buyScanAux s j).2 = s.price i := by rw [heq]
              exact le_of_not_lt (h2 ▸ hnot hl)
          · intro j hj hl hpe
            rcases Nat.lt_succ_iff_lt_or_eq.mp hj with h | h
            · exact hmin j h hl hpe
            · subst h; exact le_of_lt hi

/-- The sell scan either finds nothing, in which case every live slot in
range is priced at least the initial bestSellPrice of 1e9, or it returns
the earliest live slot of minimal price among those priced below 1e9. -/
theorem sellScanAux_spec (s : OrderSide) (n : Nat) :
    (sellScanAux s n = (-1, 1000000000) ∧
      ∀ j, j < n → liveAt s j → (1000000000 : ℚ) ≤ s.price j) ∨
    (∃ i, i < n ∧ sellScanAux s n = ((i : Int), s.price i) ∧ liveAt s i ∧
      s.price i < 1000000000 ∧
      (∀ j, j < n → liveAt s j → s.price i ≤ s.price j) ∧
      (∀ j, j < n → liveAt s j → s.price j = s.price i → i ≤ j)) := by
  induction n with
  | zero =>
      left
      exact ⟨rfl, fun j hj _ => absurd hj (Nat.not_lt_zero j)⟩
  | succ n ih =>
      by_cases hc : s.active n = true ∧ 0 < s.quantity n ∧ s.price n < (sellScanAux s n).2
      · have hstep : sellScanAux s (n + 1) = ((n : Int), s.price n) := by
          simp only [sellScanAux]
          rw [if_pos hc]
        have hinit : (sellScanAux s n).2 ≤ 1000000000 := by
          rcases ih with ⟨heq, _⟩ | ⟨i, _, heq, _, hlt, _, _⟩
          · rw [heq]
          · rw [heq]; exact le_of_lt hlt
        have hprev : ∀ j, j < n → liveAt s j → s.price n < s.price j := by
          intro j hj hl
          rcases ih with ⟨heq, hall⟩ | ⟨i, _, heq, _, _, hmin, _⟩
          · have h1 := hall j hj hl
            have h2 : (sellScanAux s n).2 = 1000000000 := by rw [heq]
            exact lt_of_lt_of_le (h2 ▸ hc.2.2) h1
          · have h1 := hmin j hj hl
            have h2 : (sellScanAux s n).2 = s.price i := by rw [heq]
            exact lt_of_lt_of_le (h2 ▸ hc.2.2) h1
        right
        refine ⟨n, Nat.lt_succ_self n, hstep, ⟨hc.1, hc.2.1⟩,
          lt_of_lt_of_le hc.2.2 hinit, ?_, ?_⟩
        · intro j hj hl
          rcases Nat.lt_succ_iff_lt_or_eq.mp hj with h | h
          · exact le_of_lt (hprev j h hl)
          · subst h; exact le_refl _
        · intro j hj hl hpe
          rcases Nat.lt_succ_iff_lt_or_eq.mp hj with h | h
          · exact absurd hpe (ne_of_gt (hprev j h hl))
          · exact Nat.le_of_eq h.symm
      · have hstep : sellScanAux s (n + 1) = sellScanAux s n := by
          simp only [sellScanAux]
          rw [if_neg hc]
        have hnot : liveAt s n → ¬ s.price n < (sellScanAux s n).2 :=
          fun hl h => hc ⟨hl.1, hl.2, h⟩
        rcases ih with ⟨heq, hall⟩ | ⟨i, hi, heq, hlive, hlt, hmin, hidx⟩
        · left
          refine ⟨hstep.trans heq, ?_⟩
          intro j hj hl
          rcases Nat.lt_succ_iff_lt_or_eq.mp hj with h | h
          · exact hall j h hl
          · subst h
            have h2 : (sellScanAux s j).2 = 1000000000 := by rw [heq]
            exact le_of_not_lt (h2 ▸ hnot hl)
        · right
          refine ⟨i, Nat.lt_succ_of_lt hi, hstep.trans heq, hlive, hlt, ?_, ?_⟩
          · intro j hj hl
            rcases Nat.lt_succ_iff_lt_or_eq.mp hj with h | h
            · exact hmin j h hl
            · subst h
              have h2 : (sellScanAux s j).2 = s.price i := by rw [heq]
              exact le_of_not_lt (h2 ▸ hnot hl)
          · intro j hj hl hpe
            rcases Nat.lt_succ_iff_lt_or_eq.mp hj with h | h
            · exact hidx j h hl hpe
            · subst h; exact le_of_lt hi

/-- If the buy scan found a slot, that slot is the earliest live slot of
maximal price, priced above -1. -/
theorem buyScan_found (s : OrderSide) (h : (buyScan s).1 ≠ -1) :
    ∃ i, i < s.count ∧ buyScan s = ((i : Int), s.price i) ∧ liveAt s i ∧
      -1 < s.price i ∧
      (∀ j, j < s.count → liveAt s j → s.price j ≤ s.price i) ∧
      (∀ j, j < s.count → liveAt s j → s.price j = s.price i → i ≤ j) := by
  rcases buyScanAux_spec s s.count with ⟨heq, _⟩ | ⟨i, hi, heq, rest⟩
  · exact absurd (congrArg Prod.fst heq) h
  · exact ⟨i, hi, heq, rest⟩

/-- If the sell scan found a slot, that slot is the earliest live slot of
minimal price, priced below 1e9. -/
theorem sellScan_found (s : OrderSide) (h : (sellScan s).1 ≠ -1) :
    ∃ i, i < s.count ∧ sellScan s = ((i : Int), s.price i) ∧ liveAt s i ∧
      s.price i < 1000000000 ∧
      (∀ j, j < s.count → liveAt s j → s.price i ≤ s.price j) ∧
      (∀ j, j < s.count → liveAt s j → s.price j = s.price i → i ≤ j) := by
  rcases sellScanAux_spec s s.count with ⟨heq, _⟩ | ⟨i, hi, heq, rest⟩
  · exact absurd (congrArg Prod.fst heq) h
  · exact ⟨i, hi, heq, rest⟩

/-! ### Unfolding lemmas for matchOrderBook -/

theorem natCast_ne_neg_one (n : Nat) : (n : Int) ≠ -1 := by omega

theorem upd_same {α : Type} (f : Nat → α) (i : Nat) (v : α) : upd f i v i = v := by
  simp [upd]

theorem upd_ne {α : Type} (f : Nat → α) (i : Nat) (v : α) (j : Nat) (h : j ≠ i) :
    upd f i v j = f j := by
  simp [upd, h]

/-- If matchOrder emitted a trade, its guard held: both scans found a slot
and bestBuyPrice was at least bestSellPrice. -/
theorem match_cond_of_some (ob : OrderBook) (t : Trade)
    (h : (matchOrderBook ob).2 = some t) :
    (buyScan ob.buy).1 ≠ -1 ∧ (sellScan ob.sell).1 ≠ -1 ∧
      (sellScan ob.sell).2 ≤ (buyScan ob.buy).2 := by
  simp only [matchOrderBook] at h
  split at h
  next hc => exact ⟨hc.1, hc.2.1, hc.2.2⟩
  next => simp at h

/-- When the guard fails, matchOrder leaves the book untouched and emits
nothing. -/
theorem match_no_mutation (ob : OrderBook)
    (h : (matchOrderBook ob).2 = none) : (matchOrderBook ob).1 = ob := by
  simp only [matchOrderBook] at h ⊢
  split at h
  next => simp at h
  next hc => rw [if_neg hc]

/-- When the guard holds, matchOrder emits a trade. -/
theorem match_isSome_of_cond (ob : OrderBook)
    (hc : (buyScan ob.buy).1 ≠ -1 ∧ (sellScan ob.sell).1 ≠ -1 ∧
      (buyScan ob.buy).2 ≥ (sellScan ob.sell).2) :
    (matchOrderBook ob).2.isSome = true := by
  simp only [matchOrderBook]
  rw [if_pos hc]
  rfl

/-- Explicit result of matchOrder when both scans found a slot and the
prices cross: both quantities are reduced by the traded amount and a slot
reaching zero is deactivated; the trade carries bestSellPrice. -/
theorem matchOrderBook_exec (ob : OrderBook) (bi si : Nat) (pb ps : ℚ)
    (hb : buyScan ob.buy = ((bi : Int), pb))
    (hs : sellScan ob.sell = ((si : Int), ps))
    (hge : ps ≤ pb) :
    matchOrderBook ob =
      (⟨{ ob.buy with
            quantity := upd ob.buy.quantity bi
              (ob.buy.quantity bi - min (ob.buy.quantity bi) (ob.sell.quantity si))
            active :=
              if ob.buy.quantity bi - min (ob.buy.quantity bi) (ob.sell.quantity si) = 0
              then upd ob.buy.active bi false else ob.buy.active },
         { ob.sell with
            quantity := upd ob.sell.quantity si
              (ob.sell.quantity si - min (ob.buy.quantity bi) (ob.sell.quantity si))
            active :=
              if ob.sell.quantity si - min (ob.buy.quantity bi) (ob.sell.quantity si) = 0
              then upd ob.sell.active si false else ob.sell.active }⟩,
       some ⟨min (ob.buy.quantity bi) (ob.sell.quantity si), ps,
             ob.buy.orderId bi, ob.sell.orderId si⟩) := by
  simp only [matchOrderBook, hb, hs]
  rw [if_pos ⟨natCast_ne_neg_one bi, natCast_ne_neg_one si, hge⟩]
  rfl

/-! ### Claim C1: execution price is the resting sell order's price -/

/-- C1. Whenever matchOrder executes a trade, the trade's price equals the
price stored in the selected resting sell slot, which is a best ask: an
active positive-quantity sell slot whose price is minimal among all active
positive-quantity sell slots. The price is read from the sell side only,
so it is never taken from the buy order and never an average. -/
theorem trade_price_is_resting_sell_price (ob : OrderBook) (t : Trade)
    (h : (matchOrderBook ob).2 = some t) :
    ∃ si : Nat, (sellScan ob.sell).1 = (si : Int) ∧ si < ob.sell.count ∧
      ob.sell.active si = true ∧ 0 < ob.sell.quantity si ∧
      t.price = ob.sell.price si ∧
      ∀ j, j < ob.sell.count → ob.sell.active j = true → 0 < ob.sell.quantity j →
        ob.sell.price si ≤ ob.sell.price j := by
  obtain ⟨hb1, hs1, hge⟩ := match_cond_of_some ob t h
  obtain ⟨bi, hbi, hbeq, hblive, hbgt, hbmax, hbmin⟩ := buyScan_found ob.buy hb1
  obtain ⟨si, hsi, hseq, hslive, hslt, hsmin, hsidx⟩ := sellScan_found ob.sell hs1
  have hge' : ob.sell.price si ≤ ob.buy.price bi := by rw [hbeq, hseq] at hge; exact hge
  have hexec := matchOrderBook_exec ob bi si _ _ hbeq hseq hge'
  have ht : t = ⟨min (ob.buy.quantity bi) (ob.sell.quantity si), ob.sell.price si,
      ob.buy.orderId bi, ob.sell.orderId si⟩ := by
    rw [hexec] at h
    exact (Option.some.inj h).symm
  refine ⟨si, by rw [hseq], hsi, hslive.1, hslive.2, by rw [ht], ?_⟩
  intro j hj ha hq
  exact hsmin j hj ⟨ha, hq⟩

def bookA : OrderBook :=
  (run OrderBook.init 0 [BookOp.addBuy 50 100, BookOp.addSell 50 90]).book

def tA : Trade := ⟨50, 90, 0, 1⟩

/-- Witness for C1 on the concrete book buy 50 at 100, sell 50 at 90. -/
theorem trade_price_is_resting_sell_price_witness :
    ∃ si : Nat, (sellScan bookA.sell).1 = (si : Int) ∧ si < bookA.sell.count ∧
      bookA.sell.active si = true ∧ 0 < bookA.sell.quantity si ∧
      tA.price = bookA.sell.price si ∧
      ∀ j, j < bookA.sell.count → bookA.sell.active j = true →
        0 < bookA.sell.quantity j → bookA.sell.price si ≤ bookA.sell.price j :=
  trade_price_is_resting_sell_price bookA tA (by decide)

/-! ### Claim C4: price priority with lowest-slot-index tie-break -/

/-- C4. When the buy scan selects a slot it is an active positive-quantity
slot of maximal price, and every active positive-quantity slot of equal
price has an index at least as large (earliest insertion wins);
symmetrically for the sell scan with minimal price. -/
theorem scan_tie_break_lowest_index (sb ss : OrderSide) (i j : Nat)
    (hb : (buyScan sb).1 = (i : Int)) (hs : (sellScan ss).1 = (j : Int)) :
    (i < sb.count ∧ sb.active i = true ∧ 0 < sb.quantity i ∧
      (∀ k, k < sb.count → sb.active k = true → 0 < sb.quantity k →
        sb.price k ≤ sb.price i) ∧
      (∀ k, k < sb.count → sb.active k = true → 0 < sb.quantity k →
        sb.price k = sb.price i → i ≤ k)) ∧
    (j < ss.count ∧ ss.active j = true ∧ 0 < ss.quantity j ∧
      (∀ k, k < ss.count → ss.active k = true → 0 < ss.quantity k →
        ss.price j ≤ ss.price k) ∧
      (∀ k, k < ss.count → ss.active k = true → 0 < ss.quantity k →
        ss.price k = ss.price j → j ≤ k)) := by
  have hb1 : (buyScan sb).1 ≠ -1 := by rw [hb]; exact natCast_ne_neg_one i
  have hs1 : (sellScan ss).1 ≠ -1 := by rw [hs]; exact natCast_ne_neg_one j
  obtain ⟨i', hi', hbeq, hblive, _, hbmax, hbmin⟩ := buyScan_found sb hb1
  obtain ⟨j', hj', hseq, hslive, _, hsmin, hsidx⟩ := sellScan_found ss hs1
  have hii : i' = i := by
    have h1 : (buyScan sb).1 = (i' : Int) := by rw [hbeq]
    rw [hb] at h1
    exact (Nat.cast_inj.mp h1).symm
  have hjj : j' = j := by
    have h1 : (sellScan ss).1 = (j' : Int) := by rw [hseq]
    rw [hs] at h1
    exact (Nat.cast_inj.mp h1).symm
  subst hii; subst hjj
  exact ⟨⟨hi', hblive.1, hblive.2,
      fun k hk ha hq => hbmax k hk ⟨ha, hq⟩,
      fun k hk ha hq he => hbmin k hk ⟨ha, hq⟩ he⟩,
    ⟨hj', hslive.1, hslive.2,
      fun k hk ha hq => hsmin k hk ⟨ha, hq⟩,
      fun k hk ha hq he => hsidx k hk ⟨ha, hq⟩ he⟩⟩

def sideB : OrderSide :=
  (run OrderBook.init 0 [BookOp.addBuy 10 100, BookOp.addBuy 10 100]).book.buy

def sideS : OrderSide :=
  (run OrderBook.init 5 [BookOp.addSell 10 90, BookOp.addSell 10 90]).book.sell

/-- Witness for C4 on sides holding two equal-priced orders each: slot 0 is
selected on both sides. -/
theorem scan_tie_break_lowest_index_witness :
    (0 < sideB.count ∧ sideB.active 0 = true ∧ 0 < sideB.quantity 0 ∧
      (∀ k, k < sideB.count → sideB.active k = true → 0 < sideB.quantity k →
        sideB.price k ≤ sideB.price 0) ∧
      (∀ k, k < sideB.count → sideB.active k = true → 0 < sideB.quantity k →
        sideB.price k = sideB.price 0 → 0 ≤ k)) ∧
    (0 < sideS.count ∧ sideS.active 0 = true ∧ 0 < sideS.quantity 0 ∧
      (∀ k, k < sideS.count → sideS.active k = true → 0 < sideS.quantity k →
        sideS.price 0 ≤ sideS.price k) ∧
      (∀ k, k < sideS.count → sideS.active k = true → 0 < sideS.quantity k →
        sideS.price k = sideS.price 0 → 0 ≤ k)) :=
  scan_tie_break_lowest_index sideB sideS 0 0 (by decide) (by decide)

/-! ### Claim C10: sell orders priced at or above the 1e9 sentinel -/

/-- C10. If every active positive-quantity sell slot is priced at or above
1e9, the sell scan selects nothing (it starts from the sentinel 1e9 and
demands a strictly smaller price), so matchOrder executes no trade and
mutates nothing, regardless of the buy side; yet submission accepts any
price whenever the side has room. -/
theorem sentinel_priced_sell_never_matches (ob : OrderBook)
    (h : ∀ j, j < ob.sell.count → ob.sell.active j = true →
      0 < ob.sell.quantity j → (1000000000 : ℚ) ≤ ob.sell.price j) :
    (sellScan ob.sell).1 = -1 ∧ matchOrderBook ob = (ob, none) ∧
    (∀ (s : OrderSide) (oid q : Int) (p : ℚ), s.count < MAX_ORDERS_PER_SIDE →
      (addOrderSide s oid q p).2 = AddResult.ok) := by
  have hfst : (sellScan ob.sell).1 = -1 := by
    rcases sellScanAux_spec ob.sell ob.sell.count with ⟨heq, _⟩ |
        ⟨i, hi, heq, hlive, hlt, _, _⟩
    · exact congrArg Prod.fst heq
    · exact absurd (h i hi hlive.1 hlive.2) (not_le_of_lt hlt)
  refine ⟨hfst, ?_, ?_⟩
  · simp only [matchOrderBook]
    rw [if_neg]
    intro hcond
    exact hcond.2.1 hfst
  · intro s oid q p hroom
    simp only [addOrderSide]
    rw [if_pos hroom]

def bookC : OrderBook :=
  (run OrderBook.init 0 [BookOp.addBuy 1 3000000000, BookOp.addSell 1 2000000000]).book

/-- Witness for C10: a sell at 2e9 with a buy at 3e9 above it still yields
no trade. -/
theorem sentinel_priced_sell_never_matches_witness :
    (sellScan bookC.sell).1 = -1 ∧ matchOrderBook bookC = (bookC, none) ∧
    (∀ (s : OrderSide) (oid q : Int) (p : ℚ), s.count < MAX_ORDERS_PER_SIDE →
      (addOrderSide s oid q p).2 = AddResult.ok) :=
  sentinel_priced_sell_never_matches bookC (by decide)

/-- The two-case characterization of the full buy scan. -/
theorem buyScan_spec (s : OrderSide) :
    (buyScan s = (-1, -1) ∧ ∀ j, j < s.count → liveAt s j → s.price j ≤ -1) ∨
    (∃ i, i < s.count ∧ buyScan s = ((i : Int), s.price i) ∧ liveAt s i ∧
      -1 < s.price i ∧
      (∀ j, j < s.count → liveAt s j → s.price j ≤ s.price i) ∧
      (∀ j, j < s.count → liveAt s j → s.price j = s.price i → i ≤ j)) :=
  buyScanAux_spec s s.count

/-- The two-case characterization of the full sell scan. -/
theorem sellScan_spec (s : OrderSide) :
    (sellScan s = (-1, 1000000000) ∧
      ∀ j, j < s.count → liveAt s j → (1000000000 : ℚ) ≤ s.price j) ∨
    (∃ i, i < s.count ∧ sellScan s = ((i : Int), s.price i) ∧ liveAt s i ∧
      s.price i < 1000000000 ∧
      (∀ j, j < s.count → liveAt s j → s.price i ≤ s.price j) ∧
      (∀ j, j < s.count → liveAt s j → s.price j = s.price i → i ≤ j)) :=
  sellScanAux_spec s s.count

/-! ### Claim C3: traded quantity, fills and deactivation -/

/-- C3. A trade's quantity is min(remaining buy quantity, remaining sell
quantity) of the two selected slots; both slots are reduced by exactly
that amount (never below zero); a slot whose quantity reaches zero is
deactivated and a slot with remaining quantity stays active. -/
theorem trade_quantity_min_and_fill (ob : OrderBook) (t : Trade)
    (h : (matchOrderBook ob).2 = some t) :
    ∃ bi si : Nat,
      (buyScan ob.buy).1 = (bi : Int) ∧ (sellScan ob.sell).1 = (si : Int) ∧
      t.quantity = min (ob.buy.quantity bi) (ob.sell.quantity si) ∧
      (matchOrderBook ob).1.buy.quantity bi = ob.buy.quantity bi - t.quantity ∧
      (matchOrderBook ob).1.sell.quantity si = ob.sell.quantity si - t.quantity ∧
      (ob.buy.quantity bi - t.quantity = 0 →
        (matchOrderBook ob).1.buy.active bi = false) ∧
      (ob.buy.quantity bi - t.quantity ≠ 0 →
        (matchOrderBook ob).1.buy.active bi = true) ∧
      (ob.sell.quantity si - t.quantity = 0 →
        (matchOrderBook ob).1.sell.active si = false) ∧
      (ob.sell.quantity si - t.quantity ≠ 0 →
        (matchOrderBook ob).1.sell.active si = true) ∧
      0 ≤ ob.buy.quantity bi - t.quantity ∧
      0 ≤ ob.sell.quantity si - t.quantity := by
  obtain ⟨hb1, hs1, hge⟩ := match_cond_of_some ob t h
  obtain ⟨bi, hbi, hbeq, hblive, _, _, _⟩ := buyScan_found ob.buy hb1
  obtain ⟨si, hsi, hseq, hslive, _, _, _⟩ := sellScan_found ob.sell hs1
  have hge' : ob.sell.price si ≤ ob.buy.price bi := by rw [hbeq, hseq] at hge; exact hge
  have hexec := matchOrderBook_exec ob bi si _ _ hbeq hseq hge'
  have ht : t = ⟨min (ob.buy.quantity bi) (ob.sell.quantity si), ob.sell.price si,
      ob.buy.orderId bi, ob.sell.orderId si⟩ := by
    rw [hexec] at h
    exact (Option.some.inj h).symm
  have htq : t.quantity = min (ob.buy.quantity bi) (ob.sell.quantity si) := by rw [ht]
  refine ⟨bi, si, by rw [hbeq], by rw [hseq], htq, ?_, ?_, ?_, ?_, ?_, ?_, ?_, ?_⟩
  · rw [hexec, htq]; exact upd_same _ _ _
  · rw [hexec, htq]; exact upd_same _ _ _
  · intro hz
    rw [htq] at hz
    rw [hexec]
    show (if ob.buy.quantity bi - min (ob.buy.quantity bi) (ob.sell.quantity si) = 0
      then upd ob.buy.active bi false else ob.buy.active) bi = false
    rw [if_pos hz]
    exact upd_same _ _ _
  · intro hz
    rw [htq] at hz
    rw [hexec]
    show (if ob.buy.quantity bi - min (ob.buy.quantity bi) (ob.sell.quantity si) = 0
      then upd ob.buy.active bi false else ob.buy.active) bi = true
    rw [if_neg hz]
    exact hblive.1
  · intro hz
    rw [htq] at hz
    rw [hexec]
    show (if ob.sell.quantity si - min (ob.buy.quantity bi) (ob.sell.quantity si) = 0
      then upd ob.sell.active si false else ob.sell.active) si = false
    rw [if_pos hz]
    exact upd_same _ _ _
  · intro hz
    rw [htq] at hz
    rw [hexec]
    show (if ob.sell.quantity si - min (ob.buy.quantity bi) (ob.sell.quantity si) = 0
      then upd ob.sell.active si false else ob.sell.active) si = true
    rw [if_neg hz]
    exact hslive.1
  · rw [htq]
    exact sub_nonneg.mpr (min_le_left _ _)
  · rw [htq]
    exact sub_nonneg.mpr (min_le_right _ _)

def bookB : OrderBook :=
  (run OrderBook.init 0 [BookOp.addBuy 30 100, BookOp.addSell 50 90]).book

def tB : Trade := ⟨30, 90, 0, 1⟩

/-- Witness for C3 on the partial-fill book buy 30 at 100, sell 50 at 90. -/
theorem trade_quantity_min_and_fill_witness :
    ∃ bi si : Nat,
      (buyScan bookB.buy).1 = (bi : Int) ∧ (sellScan bookB.sell).1 = (si : Int) ∧
      tB.quantity = min (bookB.buy.quantity bi) (bookB.sell.quantity si) ∧
      (matchOrderBook bookB).1.buy.quantity bi = bookB.buy.quantity bi - tB.quantity ∧
      (matchOrderBook bookB).1.sell.quantity si = bookB.sell.quantity si - tB.quantity ∧
      (bookB.buy.quantity bi - tB.quantity = 0 →
        (matchOrderBook bookB).1.buy.active bi = false) ∧
      (bookB.buy.quantity bi - tB.quantity ≠ 0 →
        (matchOrderBook bookB).1.buy.active bi = true) ∧
      (bookB.sell.quantity si - tB.quantity = 0 →
        (matchOrderBook bookB).1.sell.active si = false) ∧
      (bookB.sell.quantity si - tB.quantity ≠ 0 →
        (matchOrderBook bookB).1.sell.active si = true) ∧
      0 ≤ bookB.buy.quantity bi - tB.quantity ∧
      0 ≤ bookB.sell.quantity si - tB.quantity :=
  trade_quantity_min_and_fill bookB tB (by decide)

/-! ### Claim C2: when a trade happens (corrected) -/

def bookD : OrderBook :=
  (run OrderBook.init 0 [BookOp.addBuy 1 2000000000, BookOp.addSell 1 1000000000]).book

/-- Counterexample to C2 as stated: in bookD both sides hold an active
positive-quantity order and the maximum active buy price (2e9) is at least
the minimum active sell price (1e9), yet matchOrder executes no trade,
because the sell scan starts from the 1e9 sentinel and never selects the
sell slot. -/
theorem trade_iff_crossing_counterexample :
    (∃ i, i < bookD.buy.count ∧ bookD.buy.active i = true ∧ 0 < bookD.buy.quantity i) ∧
    (∃ j, j < bookD.sell.count ∧ bookD.sell.active j = true ∧ 0 < bookD.sell.quantity j) ∧
    (∃ i j, i < bookD.buy.count ∧ bookD.buy.active i = true ∧ 0 < bookD.buy.quantity i ∧
      j < bookD.sell.count ∧ bookD.sell.active j = true ∧ 0 < bookD.sell.quantity j ∧
      bookD.sell.price j ≤ bookD.buy.price i) ∧
    (matchOrderBook bookD).2 = none :=
  ⟨⟨0, by decide⟩, ⟨0, by decide⟩, ⟨0, 0, by decide⟩, by decide⟩

/-- C2 amended: matchOrder executes a trade iff there are an active
positive-quantity buy slot priced above the buy scan's initial -1 and an
active positive-quantity sell slot priced strictly below the sell scan's
1e9 sentinel, with that sell price at most that buy price; and a cycle
that executes no trade leaves the book exactly unchanged. -/
theorem trade_iff_candidates_cross (ob : OrderBook) :
    ((matchOrderBook ob).2.isSome = true ↔
      ∃ i j, i < ob.buy.count ∧ ob.buy.active i = true ∧ 0 < ob.buy.quantity i ∧
        (-1 : ℚ) < ob.buy.price i ∧
        j < ob.sell.count ∧ ob.sell.active j = true ∧ 0 < ob.sell.quantity j ∧
        ob.sell.price j < 1000000000 ∧
        ob.sell.price j ≤ ob.buy.price i) ∧
    ((matchOrderBook ob).2 = none → (matchOrderBook ob).1 = ob) := by
  refine ⟨⟨?_, ?_⟩, match_no_mutation ob⟩
  · intro hsome
    obtain ⟨t, ht⟩ := Option.isSome_iff_exists.mp hsome
    obtain ⟨hb1, hs1, hge⟩ := match_cond_of_some ob t ht
    obtain ⟨bi, hbi, hbeq, hblive, hbgt, _, _⟩ := buyScan_found ob.buy hb1
    obtain ⟨si, hsi, hseq, hslive, hslt, _, _⟩ := sellScan_found ob.sell hs1
    have hge' : ob.sell.price si ≤ ob.buy.price bi := by rw [hbeq, hseq] at hge; exact hge
    exact ⟨bi, si, hbi, hblive.1, hblive.2, hbgt, hsi, hslive.1, hslive.2, hslt, hge'⟩
  · rintro ⟨i, j, hi, hba, hbq, hbp, hj, hsa, hsq, hsp, hcross⟩
    rcases buyScan_spec ob.buy with ⟨_, hall⟩ | ⟨i', hi', hbeq, _, _, hbmax, _⟩
    · exact absurd (hall i hi ⟨hba, hbq⟩) (not_le_of_lt hbp)
    rcases sellScan_spec ob.sell with ⟨_, hall⟩ | ⟨j', hj', hseq, _, _, hsmin, _⟩
    · exact absurd (hall j hj ⟨hsa, hsq⟩) (not_le_of_lt hsp)
    apply match_isSome_of_cond
    refine ⟨?_, ?_, ?_⟩
    · rw [hbeq]; exact natCast_ne_neg_one i'
    · rw [hseq]; exact natCast_ne_neg_one j'
    · rw [hbeq, hseq]
      show ob.sell.price j' ≤ ob.buy.price i'
      calc ob.sell.price j' ≤ ob.sell.price j := hsmin j hj ⟨hsa, hsq⟩
        _ ≤ ob.buy.price i := hcross
        _ ≤ ob.buy.price i' := hbmax i hi ⟨hba, hbq⟩

/-- Witness for the amended C2: a crossing pair of live in-range prices
yields a trade. -/
theorem trade_iff_candidates_cross_witness :
    (matchOrderBook bookA).2.isSome = true :=
  (trade_iff_candidates_cross bookA).1.mpr ⟨0, 0, by decide⟩

/-! ### Claim C5: capacity is a hard ceiling -/

/-- C5. Once the insertion counter has reached capacity, every further
submission to that side is rejected as book-full, still increments the
counter, and leaves every slot exactly as it was, so whatever orders the
side stored are still stored. -/
theorem book_full_rejects_and_preserves (s : OrderSide) (oid q : Int) (p : ℚ)
    (h : MAX_ORDERS_PER_SIDE ≤ s.count) :
    (addOrderSide s oid q p).2 = AddResult.bookFull ∧
    (addOrderSide s oid q p).1.count = s.count + 1 ∧
    ∀ i, (addOrderSide s oid q p).1.orderId i = s.orderId i ∧
      (addOrderSide s oid q p).1.quantity i = s.quantity i ∧
      (addOrderSide s oid q p).1.price i = s.price i ∧
      (addOrderSide s oid q p).1.active i = s.active i := by
  have hn : ¬ s.count < MAX_ORDERS_PER_SIDE := not_lt_of_le h
  simp only [addOrderSide]
  rw [if_neg hn]
  exact ⟨rfl, rfl, fun i => ⟨rfl, rfl, rfl, rfl⟩⟩

def sideFull : OrderSide := { OrderSide.init with count := 1000 }

/-- Witness for C5 on a side whose counter has reached capacity. -/
theorem book_full_rejects_and_preserves_witness :
    (addOrderSide sideFull 7 5 3).2 = AddResult.bookFull ∧
    (addOrderSide sideFull 7 5 3).1.count = sideFull.count + 1 ∧
    ∀ i, (addOrderSide sideFull 7 5 3).1.orderId i = sideFull.orderId i ∧
      (addOrderSide sideFull 7 5 3).1.quantity i = sideFull.quantity i ∧
      (addOrderSide sideFull 7 5 3).1.price i = sideFull.price i ∧
      (addOrderSide sideFull 7 5 3).1.active i = sideFull.active i :=
  book_full_rejects_and_preserves sideFull 7 5 3 (by decide)

/-! ### Claim C8: no boundary validation exists in the code -/

/-- C8 evidence: the code performs no validation at all. A zero-quantity
buy submission (the claim requires it to be rejected as InvalidOrder
before the arena is touched) is accepted: it consumes a global order id,
increments the side's insertion counter, and publishes an active slot
whose quantity is 0. -/
theorem invalid_order_not_rejected :
    (addOrder MarketState.init OrderType.BUY 0 0 10).2 = AddResult.ok ∧
    (addOrder MarketState.init OrderType.BUY 0 0 10).1.globalOrderId = 1 ∧
    ((addOrder MarketState.init OrderType.BUY 0 0 10).1.orderBooks 0).buy.count = 1 ∧
    ((addOrder MarketState.init OrderType.BUY 0 0 10).1.orderBooks 0).buy.active 0 = true ∧
    ((addOrder MarketState.init OrderType.BUY 0 0 10).1.orderBooks 0).buy.quantity 0 = 0 := by
  decide

/-! ### Step-effect lemmas for the runner -/

/-- Explicit result of a submission with room: all four fields published at
slot count, counter incremented. -/
theorem addOrderSide_accept (s : OrderSide) (oid q : Int) (p : ℚ)
    (hc : s.count < MAX_ORDERS_PER_SIDE) :
    addOrderSide s oid q p =
      ({ s with
          orderId := upd s.orderId s.count oid
          quantity := upd s.quantity s.count q
          price := upd s.price s.count p
          active := upd s.active s.count true
          count := s.count + 1 }, AddResult.ok) := by
  simp only [addOrderSide]
  rw [if_pos hc]

/-- Explicit result of a submission to a full side: only the counter moves. -/
theorem addOrderSide_reject (s : OrderSide) (oid q : Int) (p : ℚ)
    (hc : ¬ s.count < MAX_ORDERS_PER_SIDE) :
    addOrderSide s oid q p = ({ s with count := s.count + 1 }, AddResult.bookFull) := by
  simp only [addOrderSide]
  rw [if_neg hc]

/-- A submission grows the counter by one and never touches a slot below
the old counter value. -/
theorem addOrderSide_below (s : OrderSide) (oid q : Int) (p : ℚ) :
    (addOrderSide s oid q p).1.count = s.count + 1 ∧
    ∀ i, i < s.count →
      (addOrderSide s oid q p).1.quantity i = s.quantity i ∧
      (addOrderSide s oid q p).1.active i = s.active i := by
  by_cases hc : s.count < MAX_ORDERS_PER_SIDE
  · rw [addOrderSide_accept s oid q p hc]
    exact ⟨rfl, fun i hi =>
      ⟨upd_ne _ _ _ _ (Nat.ne_of_lt hi), upd_ne _ _ _ _ (Nat.ne_of_lt hi)⟩⟩
  · rw [addOrderSide_reject s oid q p hc]
    exact ⟨rfl, fun i hi => ⟨rfl, rfl⟩⟩

/-- One matchOrder cycle keeps both counters, never increases any slot's
quantity, and never reactivates an inactive slot. -/
theorem matchOrderBook_mono (ob : OrderBook) :
    (matchOrderBook ob).1.buy.count = ob.buy.count ∧
    (matchOrderBook ob).1.sell.count = ob.sell.count ∧
    (∀ i, (matchOrderBook ob).1.buy.quantity i ≤ ob.buy.quantity i ∧
      (ob.buy.active i = false → (matchOrderBook ob).1.buy.active i = false)) ∧
    (∀ i, (matchOrderBook ob).1.sell.quantity i ≤ ob.sell.quantity i ∧
      (ob.sell.active i = false → (matchOrderBook ob).1.sell.active i = false)) := by
  rcases hm : (matchOrderBook ob).2 with _ | t
  · have h1 := match_no_mutation ob hm
    rw [h1]
    exact ⟨rfl, rfl, fun i => ⟨le_refl _, fun h => h⟩, fun i => ⟨le_refl _, fun h => h⟩⟩
  · obtain ⟨hb1, hs1, hge⟩ := match_cond_of_some ob t hm
    obtain ⟨bi, hbi, hbeq, hblive, _, _, _⟩ := buyScan_found ob.buy hb1
    obtain ⟨si, hsi, hseq, hslive, _, _, _⟩ := sellScan_found ob.sell hs1
    have hge' : ob.sell.price si ≤ ob.buy.price bi := by rw [hbeq, hseq] at hge; exact hge
    have hexec := matchOrderBook_exec ob bi si _ _ hbeq hseq hge'
    have htq : 0 ≤ min (ob.buy.quantity bi) (ob.sell.quantity si) :=
      le_min (le_of_lt hblive.2) (le_of_lt hslive.2)
    rw [hexec]
    refine ⟨rfl, rfl, fun i => ⟨?_, ?_⟩, fun i => ⟨?_, ?_⟩⟩
    · show upd ob.buy.quantity bi
        (ob.buy.quantity bi - min (ob.buy.quantity bi) (ob.sell.quantity si)) i
        ≤ ob.buy.quantity i
      by_cases hib : i = bi
      · subst hib
        rw [upd_same]
        exact sub_le_self _ htq
      · rw [upd_ne _ _ _ _ hib]
    · intro hfa
      show (if ob.buy.quantity bi - min (ob.buy.quantity bi) (ob.sell.quantity si) = 0
        then upd ob.buy.active bi false else ob.buy.active) i = false
      by_cases hz : ob.buy.quantity bi - min (ob.buy.quantity bi) (ob.sell.quantity si) = 0
      · rw [if_pos hz]
        by_cases hib : i = bi
        · subst hib; exact upd_same _ _ _
        · rw [upd_ne _ _ _ _ hib]; exact hfa
      · rw [if_neg hz]; exact hfa
    · show upd ob.sell.quantity si
        (ob.sell.quantity si - min (ob.buy.quantity bi) (ob.sell.quantity si)) i
        ≤ ob.sell.quantity i
      by_cases his : i = si
      · subst his
        rw [upd_same]
        exact sub_le_self _ htq
      · rw [upd_ne _ _ _ _ his]
    · intro hfa
      show (if ob.sell.quantity si - min (ob.buy.quantity bi) (ob.sell.quantity si) = 0
        then upd ob.sell.active si false else ob.sell.active) i = false
      by_cases hz : ob.sell.quantity si - min (ob.buy.quantity bi) (ob.sell.quantity si) = 0
      · rw [if_pos hz]
        by_cases his : i = si
        · subst his; exact upd_same _ _ _
        · rw [upd_ne _ _ _ _ his]; exact hfa
      · rw [if_neg hz]; exact hfa

/-- Over a whole run, counters only grow, and every slot reserved at the
start only sees its quantity shrink and its active flag go false. -/
theorem run_mono (ops : List BookOp) : ∀ (b : OrderBook) (nid : Int),
    b.buy.count ≤ (run b nid ops).book.buy.count ∧
    b.sell.count ≤ (run b nid ops).book.sell.count ∧
    (∀ i, i < b.buy.count →
      (run b nid ops).book.buy.quantity i ≤ b.buy.quantity i ∧
      (b.buy.active i = false → (run b nid ops).book.buy.active i = false)) ∧
    (∀ i, i < b.sell.count →
      (run b nid ops).book.sell.quantity i ≤ b.sell.quantity i ∧
      (b.sell.active i = false → (run b nid ops).book.sell.active i = false)) := by
  induction ops with
  | nil =>
      intro b nid
      exact ⟨le_refl _, le_refl _, fun i _ => ⟨le_refl _, fun h => h⟩,
        fun i _ => ⟨le_refl _, fun h => h⟩⟩
  | cons op ops ih =>
      intro b nid
      cases op with
      | addBuy q p =>
          obtain ⟨hcnt, hbelow⟩ := addOrderSide_below b.buy nid q p
          have hrun : run b nid (BookOp.addBuy q p :: ops) =
              { run { b with buy := (addOrderSide b.buy nid q p).1 } (nid + 1) ops with
                  results := (addOrderSide b.buy nid q p).2 ::
                    (run { b with buy := (addOrderSide b.buy nid q p).1 } (nid + 1) ops).results
                  rejectedQty :=
                    (if (addOrderSide b.buy nid q p).2 = AddResult.bookFull then q else 0) +
                    (run { b with buy := (addOrderSide b.buy nid q p).1 } (nid + 1) ops).rejectedQty } :=
            rfl
          rw [hrun]
          obtain ⟨ihc1, ihc2, ihb, ihs⟩ := ih { b with buy := (addOrderSide b.buy nid q p).1 } (nid + 1)
          refine ⟨?_, ihc2, ?_, ihs⟩
          · exact le_trans (hcnt ▸ Nat.le_succ b.buy.count) ihc1
          · intro i hi
            have hi1 : i < (addOrderSide b.buy nid q p).1.count := by
              rw [hcnt]; exact Nat.lt_succ_of_lt hi
            obtain ⟨hq1, ha1⟩ := hbelow i hi
            obtain ⟨hq2, ha2⟩ := ihb i hi1
            exact ⟨hq1 ▸ hq2, fun hf => ha2 (ha1.trans hf)⟩
      | addSell q p =>
          obtain ⟨hcnt, hbelow⟩ := addOrderSide_below b.sell nid q p
          have hrun : run b nid (BookOp.addSell q p :: ops) =
              { run { b with sell := (addOrderSide b.sell nid q p).1 } (nid + 1) ops with
                  results := (addOrderSide b.sell nid q p).2 ::
                    (run { b with sell := (addOrderSide b.sell nid q p).1 } (nid + 1) ops).results
                  rejectedQty :=
                    (if (addOrderSide b.sell nid q p).2 = AddResult.bookFull then q else 0) +
                    (run { b with sell := (addOrderSide b.sell nid q p).1 } (nid + 1) ops).rejectedQty } :=
            rfl
          rw [hrun]
          obtain ⟨ihc1, ihc2, ihb, ihs⟩ := ih { b with sell := (addOrderSide b.sell nid q p).1 } (nid + 1)
          refine ⟨ihc1, ?_, ihb, ?_⟩
          · exact le_trans (hcnt ▸ Nat.le_succ b.sell.count) ihc2
          · intro i hi
            have hi1 : i < (addOrderSide b.sell nid q p).1.count := by
              rw [hcnt]; exact Nat.lt_succ_of_lt hi
            obtain ⟨hq1, ha1⟩ := hbelow i hi
            obtain ⟨hq2, ha2⟩ := ihs i hi1
            exact ⟨hq1 ▸ hq2, fun hf => ha2 (ha1.trans hf)⟩
      | matchB =>
          obtain ⟨hmc1, hmc2, hmb, hms⟩ := matchOrderBook_mono b
          have hrun : run b nid (BookOp.matchB :: ops) =
              { run (matchOrderBook b).1 nid ops with
                  trades := (matchOrderBook b).2.toList ++
                    (run (matchOrderBook b).1 nid ops).trades } := rfl
          rw [hrun]
          obtain ⟨ihc1, ihc2, ihb, ihs⟩ := ih (matchOrderBook b).1 nid
          refine ⟨hmc1 ▸ ihc1, hmc2 ▸ ihc2, ?_, ?_⟩
          · intro i hi
            obtain ⟨hq2, ha2⟩ := ihb i (by rw [hmc1]; exact hi)
            obtain ⟨hq1, ha1⟩ := hmb i
            exact ⟨le_trans hq2 hq1, fun hf => ha2 (ha1 hf)⟩
          · intro i hi
            obtain ⟨hq2, ha2⟩ := ihs i (by rw [hmc2]; exact hi)
            obtain ⟨hq1, ha1⟩ := hms i
            exact ⟨le_trans hq2 hq1, fun hf => ha2 (ha1 hf)⟩

/-! ### Claim C6: per-slot monotone transitions -/

/-- C6. For every book state, every sequence of submissions and match
cycles, and every slot already reserved at the start (index below the
side's insertion counter), the slot's remaining quantity never increases
and an inactive slot never becomes active again. The initial state is
universally quantified, so this also bounds every adjacent pair of states
along any longer history. -/
theorem slot_transitions_monotone (b : OrderBook) (nid : Int)
    (ops : List BookOp) (i : Nat) :
    (i < b.buy.count →
      (run b nid ops).book.buy.quantity i ≤ b.buy.quantity i ∧
      (b.buy.active i = false → (run b nid ops).book.buy.active i = false)) ∧
    (i < b.sell.count →
      (run b nid ops).book.sell.quantity i ≤ b.sell.quantity i ∧
      (b.sell.active i = false → (run b nid ops).book.sell.active i = false)) := by
  obtain ⟨_, _, hb, hs⟩ := run_mono ops b nid
  exact ⟨fun hi => hb i hi, fun hi => hs i hi⟩

/-- Witness for C6: one match cycle on the partial-fill book. -/
theorem slot_transitions_monotone_witness :
    ((run bookB 2 [BookOp.matchB]).book.buy.quantity 0 ≤ bookB.buy.quantity 0 ∧
      (bookB.buy.active 0 = false →
        (run bookB 2 [BookOp.matchB]).book.buy.active 0 = false)) ∧
    ((run bookB 2 [BookOp.matchB]).book.sell.quantity 0 ≤ bookB.sell.quantity 0 ∧
      (bookB.sell.active 0 = false →
        (run bookB 2 [BookOp.matchB]).book.sell.active 0 = false)) :=
  ⟨(slot_transitions_monotone bookB 2 [BookOp.matchB] 0).1 (by decide),
   (slot_transitions_monotone bookB 2 [BookOp.matchB] 0).2 (by decide)⟩

/-! ### Conservation of quantity -/

/-- Invariant of every reachable side under positive-quantity submissions:
slots at or beyond the written region are inactive, inactive slots hold
quantity 0 (deactivation happens only at zero), and no quantity is
negative. -/
def SideInv (s : OrderSide) : Prop :=
  (∀ i, min s.count MAX_ORDERS_PER_SIDE ≤ i → s.active i = false) ∧
  (∀ i, s.active i = false → s.quantity i = 0) ∧
  (∀ i, 0 ≤ s.quantity i)

theorem SideInv_init : SideInv OrderSide.init :=
  ⟨fun _ _ => rfl, fun _ _ => rfl, fun _ => le_refl 0⟩

/-- Summing over a range after updating one cell inside it. -/
theorem sum_range_upd (f : Nat → Int) (n i : Nat) (v : Int) (hi : i < n) :
    ((Finset.range n).sum fun j => upd f i v j) = (Finset.range n).sum f - f i + v := by
  have hmem : i ∈ Finset.range n := Finset.mem_range.mpr hi
  have hsplit : ∀ j, upd f i v j = f j + (if j = i then v - f i else 0) := by
    intro j
    by_cases h : j = i
    · subst h; rw [upd_same, if_pos rfl]; ring
    · rw [upd_ne _ _ _ _ h, if_neg h]; ring
  calc ((Finset.range n).sum fun j => upd f i v j)
      = (Finset.range n).sum fun j => f j + (if j = i then v - f i else 0) :=
        Finset.sum_congr rfl fun j _ => hsplit j
    _ = (Finset.range n).sum f
          + (Finset.range n).sum fun j => (if j = i then v - f i else 0) :=
        Finset.sum_add_distrib
    _ = (Finset.range n).sum f + (v - f i) := by
        rw [Finset.sum_ite_eq' (Finset.range n) i fun _ => v - f i, if_pos hmem]
    _ = (Finset.range n).sum f - f i + v := by ring

/-- When inactive slots hold zero, summing over active orders is the same
as summing over all reserved slots. -/
theorem activeQty_eq_totalQty (s : OrderSide)
    (hB : ∀ i, s.active i = false → s.quantity i = 0) :
    activeQty s = totalQty s := by
  refine Finset.sum_congr rfl fun i _ => ?_
  by_cases h : s.active i = true
  · rw [if_pos h]
  · have hf : s.active i = false := by
      cases hb2 : s.active i
      · rfl
      · exact absurd hb2 h
    rw [if_neg h]
    exact (hB i hf).symm

theorem tradedSum_append (l1 l2 : List Trade) :
    tradedSum (l1 ++ l2) = tradedSum l1 + tradedSum l2 := by
  simp [tradedSum]

/-- A submission adds its quantity to the stored total exactly when it is
accepted, given that the next cell is still blank. -/
theorem totalQty_addOrderSide (s : OrderSide) (oid q : Int) (p : ℚ)
    (hInv : SideInv s) :
    totalQty (addOrderSide s oid q p).1 =
      totalQty s + (if (addOrderSide s oid q p).2 = AddResult.ok then q else 0) := by
  obtain ⟨hA, hB, _⟩ := hInv
  have hq0 : s.quantity s.count = 0 := hB _ (hA _ (min_le_left _ _))
  by_cases hc : s.count < MAX_ORDERS_PER_SIDE
  · rw [addOrderSide_accept s oid q p hc]
    show ((Finset.range (s.count + 1)).sum fun j => upd s.quantity s.count q j)
      = totalQty s + (if AddResult.ok = AddResult.ok then q else 0)
    rw [if_pos rfl, Finset.sum_range_succ]
    have h1 : ((Finset.range s.count).sum fun j => upd s.quantity s.count q j)
        = totalQty s :=
      Finset.sum_congr rfl fun j hj =>
        upd_ne _ _ _ _ (Nat.ne_of_lt (Finset.mem_range.mp hj))
    rw [h1, upd_same]
  · rw [addOrderSide_reject s oid q p hc]
    show ((Finset.range (s.count + 1)).sum fun j => s.quantity j)
      = totalQty s + (if AddResult.bookFull = AddResult.ok then q else 0)
    rw [if_neg (by intro h; cases h), Finset.sum_range_succ, hq0]
    show totalQty s + 0 = totalQty s + 0
    rfl

/-- A positive-quantity submission preserves the side invariant. -/
theorem SideInv_addOrderSide (s : OrderSide) (oid q : Int) (p : ℚ)
    (hq : 0 < q) (hInv : SideInv s) : SideInv (addOrderSide s oid q p).1 := by
  obtain ⟨hA, hB, hC⟩ := hInv
  by_cases hc : s.count < MAX_ORDERS_PER_SIDE
  · rw [addOrderSide_accept s oid q p hc]
    refine ⟨?_, ?_, ?_⟩
    · intro i hi
      have hi' : min (s.count + 1) MAX_ORDERS_PER_SIDE ≤ i := hi
      have hne : i ≠ s.count := by omega
      show upd s.active s.count true i = false
      rw [upd_ne _ _ _ _ hne]
      exact hA i (by omega)
    · intro i hfa
      have hfa' : upd s.active s.count true i = false := hfa
      by_cases hne : i = s.count
      · subst hne
        rw [upd_same] at hfa'
        cases hfa'
      · rw [upd_ne _ _ _ _ hne] at hfa'
        show upd s.quantity s.count q i = 0
        rw [upd_ne _ _ _ _ hne]
        exact hB i hfa'
    · intro i
      show 0 ≤ upd s.quantity s.count q i
      by_cases hne : i = s.count
      · subst hne; rw [upd_same]; exact le_of_lt hq
      · rw [upd_ne _ _ _ _ hne]; exact hC i
  · rw [addOrderSide_reject s oid q p hc]
    refine ⟨?_, hB, hC⟩
    intro i hi
    have hi' : min (s.count + 1) MAX_ORDERS_PER_SIDE ≤ i := hi
    exact hA i (by omega)

/-- Reducing a live slot by at most its quantity and deactivating it when
it reaches zero preserves the side invariant. -/
theorem SideInv_reduce (s : OrderSide) (i : Nat) (tq : Int)
    (hlive : liveAt s i) (hInv : SideInv s) (hle : tq ≤ s.quantity i) :
    SideInv { s with
        quantity := upd s.quantity i (s.quantity i - tq)
        active := if s.quantity i - tq = 0 then upd s.active i false else s.active } := by
  obtain ⟨hA, hB, hC⟩ := hInv
  refine ⟨?_, ?_, ?_⟩
  · intro j hj
    have hj' : min s.count MAX_ORDERS_PER_SIDE ≤ j := hj
    have hne : j ≠ i := by
      intro h
      have h1 := hA j hj'
      rw [h, hlive.1] at h1
      cases h1
    show (if s.quantity i - tq = 0 then upd s.active i false else s.active) j = false
    by_cases hz : s.quantity i - tq = 0
    · rw [if_pos hz, upd_ne _ _ _ _ hne]; exact hA j hj'
    · rw [if_neg hz]; exact hA j hj'
  · intro j hfa
    have hfa' : (if s.quantity i - tq = 0 then upd s.active i false else s.active) j
        = false := hfa
    show upd s.quantity i (s.quantity i - tq) j = 0
    by_cases hne : j = i
    · rw [hne, upd_same]
      by_cases hz : s.quantity i - tq = 0
      · exact hz
      · rw [if_neg hz, hne, hlive.1] at hfa'
        cases hfa'
    · rw [upd_ne _ _ _ _ hne]
      by_cases hz : s.quantity i - tq = 0
      · rw [if_pos hz, upd_ne _ _ _ _ hne] at hfa'
        exact hB j hfa'
      · rw [if_neg hz] at hfa'
        exact hB j hfa'
  · intro j
    show 0 ≤ upd s.quantity i (s.quantity i - tq) j
    by_cases hne : j = i
    · rw [hne, upd_same]; exact sub_nonneg.mpr hle
    · rw [upd_ne _ _ _ _ hne]; exact hC j

/-- One match cycle preserves both side invariants and conserves quantity:
what the two sides lose together is exactly twice the emitted trade
quantity, and that quantity is never negative. -/
theorem match_conservation (ob : OrderBook)
    (hbInv : SideInv ob.buy) (hsInv : SideInv ob.sell) :
    SideInv (matchOrderBook ob).1.buy ∧ SideInv (matchOrderBook ob).1.sell ∧
    totalQty (matchOrderBook ob).1.buy + totalQty (matchOrderBook ob).1.sell
        + 2 * tradedSum (matchOrderBook ob).2.toList
      = totalQty ob.buy + totalQty ob.sell ∧
    0 ≤ tradedSum (matchOrderBook ob).2.toList := by
  rcases hm : (matchOrderBook ob).2 with _ | t
  · have h1 := match_no_mutation ob hm
    rw [h1]
    refine ⟨hbInv, hsInv, ?_, ?_⟩
    · simp [tradedSum]
    · simp [tradedSum]
  · obtain ⟨hb1, hs1, hge⟩ := match_cond_of_some ob t hm
    obtain ⟨bi, hbi, hbeq, hblive, _, _, _⟩ := buyScan_found ob.buy hb1
    obtain ⟨si, hsi, hseq, hslive, _, _, _⟩ := sellScan_found ob.sell hs1
    have hge' : ob.sell.price si ≤ ob.buy.price bi := by rw [hbeq, hseq] at hge; exact hge
    have hexec := matchOrderBook_exec ob bi si _ _ hbeq hseq hge'
    have htq0 : 0 < min (ob.buy.quantity bi) (ob.sell.quantity si) :=
      lt_min hblive.2 hslive.2
    have htt : t = ⟨min (ob.buy.quantity bi) (ob.sell.quantity si), ob.sell.price si,
        ob.buy.orderId bi, ob.sell.orderId si⟩ := by
      rw [hexec] at hm
      exact (Option.some.inj hm).symm
    have htr : tradedSum (some t).toList
        = min (ob.buy.quantity bi) (ob.sell.quantity si) := by
      rw [htt]
      simp [tradedSum]
    have hTb : totalQty (matchOrderBook ob).1.buy
        = totalQty ob.buy - ob.buy.quantity bi
          + (ob.buy.quantity bi - min (ob.buy.quantity bi) (ob.sell.quantity si)) := by
      rw [hexec]
      exact sum_range_upd ob.buy.quantity ob.buy.count bi _ hbi
    have hTs : totalQty (matchOrderBook ob).1.sell
        = totalQty ob.sell - ob.sell.quantity si
          + (ob.sell.quantity si - min (ob.buy.quantity bi) (ob.sell.quantity si)) := by
      rw [hexec]
      exact sum_range_upd ob.sell.quantity ob.sell.count si _ hsi
    refine ⟨?_, ?_, ?_, ?_⟩
    · rw [hexec]
      exact SideInv_reduce ob.buy bi _ hblive hbInv (min_le_left _ _)
    · rw [hexec]
      exact SideInv_reduce ob.sell si _ hslive hsInv (min_le_right _ _)
    · rw [hTb, hTs, htr]; ring
    · rw [htr]; exact le_of_lt htq0

/-- Run-level conservation: the stored totals plus twice the traded volume
plus the rejected volume always equal the initial totals plus everything
submitted; rejected and traded volumes are nonnegative; and with no
book-full result nothing was rejected. -/
theorem run_conservation (ops : List BookOp) : ∀ (b : OrderBook) (nid : Int),
    (∀ op ∈ ops, opPos op) → SideInv b.buy → SideInv b.sell →
    SideInv (run b nid ops).book.buy ∧ SideInv (run b nid ops).book.sell ∧
    totalQty (run b nid ops).book.buy + totalQty (run b nid ops).book.sell
        + 2 * tradedSum (run b nid ops).trades + (run b nid ops).rejectedQty
      = totalQty b.buy + totalQty b.sell + submittedQty ops ∧
    0 ≤ (run b nid ops).rejectedQty ∧
    0 ≤ tradedSum (run b nid ops).trades ∧
    (AddResult.bookFull ∉ (run b nid ops).results → (run b nid ops).rejectedQty = 0) := by
  induction ops with
  | nil =>
      intro b nid _ hbInv hsInv
      refine ⟨hbInv, hsInv, ?_, le_refl 0, le_refl 0, fun _ => rfl⟩
      show totalQty b.buy + totalQty b.sell + 2 * tradedSum [] + 0
        = totalQty b.buy + totalQty b.sell + submittedQty []
      simp [tradedSum, submittedQty]
  | cons op ops ih =>
      intro b nid hpos hbInv hsInv
      have hposh := hpos op (List.mem_cons_self op ops)
      have hpost : ∀ o ∈ ops, opPos o := fun o ho => hpos o (List.mem_cons_of_mem op ho)
      cases op with
      | addBuy q p =>
          have hq : 0 < q := hposh
          have hb1 : SideInv (addOrderSide b.buy nid q p).1 :=
            SideInv_addOrderSide b.buy nid q p hq hbInv
          obtain ⟨ih1, ih2, ih3, ih4, ih5, ih6⟩ :=
            ih { b with buy := (addOrderSide b.buy nid q p).1 } (nid + 1) hpost hb1 hsInv
          have hT := totalQty_addOrderSide b.buy nid q p hbInv
          have hcases : (if (addOrderSide b.buy nid q p).2 = AddResult.ok then q else 0)
              + (if (addOrderSide b.buy nid q p).2 = AddResult.bookFull then q else 0) = q := by
            rcases (addOrderSide b.buy nid q p).2 with _ | _ <;> simp
          have hrej0 : 0 ≤ (if (addOrderSide b.buy nid q p).2 = AddResult.bookFull
              then q else 0) := by
            split
            · exact le_of_lt hq
            · exact le_refl 0
          refine ⟨ih1, ih2, ?_, ?_, ih5, ?_⟩
          · show totalQty (run { b with buy := (addOrderSide b.buy nid q p).1 } (nid + 1) ops).book.buy
                + totalQty (run { b with buy := (addOrderSide b.buy nid q p).1 } (nid + 1) ops).book.sell
                + 2 * tradedSum (run { b with buy := (addOrderSide b.buy nid q p).1 } (nid + 1) ops).trades
                + ((if (addOrderSide b.buy nid q p).2 = AddResult.bookFull then q else 0)
                  + (run { b with buy := (addOrderSide b.buy nid q p).1 } (nid + 1) ops).rejectedQty)
              = totalQty b.buy + totalQty b.sell + (q + submittedQty ops)
            have hT' : totalQty (addOrderSide b.buy nid q p).1
                = totalQty b.buy
                  + (if (addOrderSide b.buy nid q p).2 = AddResult.ok then q else 0) := hT
            have ih3' : totalQty (run { b with buy := (addOrderSide b.buy nid q p).1 } (nid + 1) ops).book.buy
                + totalQty (run { b with buy := (addOrderSide b.buy nid q p).1 } (nid + 1) ops).book.sell
                + 2 * tradedSum (run { b with buy := (addOrderSide b.buy nid q p).1 } (nid + 1) ops).trades
                + (run { b with buy := (addOrderSide b.buy nid q p).1 } (nid + 1) ops).rejectedQty
              = totalQty (addOrderSide b.buy nid q p).1 + totalQty b.sell + submittedQty ops := ih3
            omega
          · show 0 ≤ (if (addOrderSide b.buy nid q p).2 = AddResult.bookFull then q else 0)
                + (run { b with buy := (addOrderSide b.buy nid q p).1 } (nid + 1) ops).rejectedQty
            exact add_nonneg hrej0 ih4
          · intro hmem
            show (if (addOrderSide b.buy nid q p).2 = AddResult.bookFull then q else 0)
                + (run { b with buy := (addOrderSide b.buy nid q p).1 } (nid + 1) ops).rejectedQty = 0
            have hmem' : AddResult.bookFull ∉ (addOrderSide b.buy nid q p).2 ::
                (run { b with buy := (addOrderSide b.buy nid q p).1 } (nid + 1) ops).results := hmem
            have hne : (addOrderSide b.buy nid q p).2 ≠ AddResult.bookFull :=
              fun h => hmem' (h ▸ List.mem_cons_self _ _)
            rw [if_neg hne, ih6 fun h => hmem' (List.mem_cons_of_mem _ h)]
            rfl
      | addSell q p =>
          have hq : 0 < q := hposh
          have hs1 : SideInv (addOrderSide b.sell nid q p).1 :=
            SideInv_addOrderSide b.sell nid q p hq hsInv
          obtain ⟨ih1, ih2, ih3, ih4, ih5, ih6⟩ :=
            ih { b with sell := (addOrderSide b.sell nid q p).1 } (nid + 1) hpost hbInv hs1
          have hT := totalQty_addOrderSide b.sell nid q p hsInv
          have hcases : (if (addOrderSide b.sell nid q p).2 = AddResult.ok then q else 0)
              + (if (addOrderSide b.sell nid q p).2 = AddResult.bookFull then q else 0) = q := by
            rcases (addOrderSide b.sell nid q p).2 with _ | _ <;> simp
          have hrej0 : 0 ≤ (if (addOrderSide b.sell nid q p).2 = AddResult.bookFull
              then q else 0) := by
            split
            · exact le_of_lt hq
            · exact le_refl 0
          refine ⟨ih1, ih2, ?_, ?_, ih5, ?_⟩
          · show totalQty (run { b with sell := (addOrderSide b.sell nid q p).1 } (nid + 1) ops).book.buy
                + totalQty (run { b with sell := (addOrderSide b.sell nid q p).1 } (nid + 1) ops).book.sell
                + 2 * tradedSum (run { b with sell := (addOrderSide b.sell nid q p).1 } (nid + 1) ops).trades
                + ((if (addOrderSide b.sell nid q p).2 = AddResult.bookFull then q else 0)
                  + (run { b with sell := (addOrderSide b.sell nid q p).1 } (nid + 1) ops).rejectedQty)
              = totalQty b.buy + totalQty b.sell + (q + submittedQty ops)
            have hT' : totalQty (addOrderSide b.sell nid q p).1
                = totalQty b.sell
                  + (if (addOrderSide b.sell nid q p).2 = AddResult.ok then q else 0) := hT
            have ih3' : totalQty (run { b with sell := (addOrderSide b.sell nid q p).1 } (nid + 1) ops).book.buy
                + totalQty (run { b with sell := (addOrderSide b.sell nid q p).1 } (nid + 1) ops).book.sell
                + 2 * tradedSum (run { b with sell := (addOrderSide b.sell nid q p).1 } (nid + 1) ops).trades
                + (run { b with sell := (addOrderSide b.sell nid q p).1 } (nid + 1) ops).rejectedQty
              = totalQty b.buy + totalQty (addOrderSide b.sell nid q p).1 + submittedQty ops := ih3
            omega
          · show 0 ≤ (if (addOrderSide b.sell nid q p).2 = AddResult.bookFull then q else 0)
                + (run { b with sell := (addOrderSide b.sell nid q p).1 } (nid + 1) ops).rejectedQty
            exact add_nonneg hrej0 ih4
          · intro hmem
            show (if (addOrderSide b.sell nid q p).2 = AddResult.bookFull then q else 0)
                + (run { b with sell := (addOrderSide b.sell nid q p).1 } (nid + 1) ops).rejectedQty = 0
            have hmem' : AddResult.bookFull ∉ (addOrderSide b.sell nid q p).2 ::
                (run { b with sell := (addOrderSide b.sell nid q p).1 } (nid + 1) ops).results := hmem
            have hne : (addOrderSide b.sell nid q p).2 ≠ AddResult.bookFull :=
              fun h => hmem' (h ▸ List.mem_cons_self _ _)
            rw [if_neg hne, ih6 fun h => hmem' (List.mem_cons_of_mem _ h)]
            rfl
      | matchB =>
          obtain ⟨hm1, hm2, hm3, hm4⟩ := match_conservation b hbInv hsInv
          obtain ⟨ih1, ih2, ih3, ih4, ih5, ih6⟩ :=
            ih (matchOrderBook b).1 nid hpost hm1 hm2
          refine ⟨ih1, ih2, ?_, ih4, ?_, ih6⟩
          · show totalQty (run (matchOrderBook b).1 nid ops).book.buy
                + totalQty (run (matchOrderBook b).1 nid ops).book.sell
                + 2 * tradedSum ((matchOrderBook b).2.toList
                    ++ (run (matchOrderBook b).1 nid ops).trades)
                + (run (matchOrderBook b).1 nid ops).rejectedQty
              = totalQty b.buy + totalQty b.sell + submittedQty ops
            rw [tradedSum_append]
            omega
          · show 0 ≤ tradedSum ((matchOrderBook b).2.toList
                ++ (run (matchOrderBook b).1 nid ops).trades)
            rw [tradedSum_append]
            exact add_nonneg hm4 ih5

/-! ### Claim C7: conservation at quiescent points (corrected) -/

def opsC7 : List BookOp := [BookOp.addBuy 50 100, BookOp.addSell 50 90, BookOp.matchB]

/-- Counterexample to C7 as stated: submitting buy 50 at 100 and sell 50
at 90 and matching rejects nothing, yet the emitted trade quantity (50)
plus the remaining active quantity (0) is 50, not the 100 submitted: a
trade consumes quantity on both sides but its Trade record counts it
once, so equality fails whenever any trade occurred. -/
theorem conservation_equality_counterexample :
    AddResult.bookFull ∉ (run OrderBook.init 0 opsC7).results ∧
    tradedSum (run OrderBook.init 0 opsC7).trades
        + activeQty (run OrderBook.init 0 opsC7).book.buy
        + activeQty (run OrderBook.init 0 opsC7).book.sell
      ≠ submittedQty opsC7 := by
  refine ⟨by decide, by decide⟩

/-- C7 amended: for every sequence of positive-quantity submissions and
match cycles on one instrument starting from the empty book, the emitted
trade quantity plus the remaining active quantity on both sides is at
most the total submitted quantity; and when no submission was rejected,
counting each trade once per side (twice per Trade record, since a trade
consumes quantity from both books) gives exact equality. -/
theorem conservation_of_quantity (ops : List BookOp)
    (hpos : ∀ op ∈ ops, opPos op) :
    tradedSum (run OrderBook.init 0 ops).trades
        + activeQty (run OrderBook.init 0 ops).book.buy
        + activeQty (run OrderBook.init 0 ops).book.sell
      ≤ submittedQty ops ∧
    (AddResult.bookFull ∉ (run OrderBook.init 0 ops).results →
      2 * tradedSum (run OrderBook.init 0 ops).trades
          + activeQty (run OrderBook.init 0 ops).book.buy
          + activeQty (run OrderBook.init 0 ops).book.sell
        = submittedQty ops) := by
  obtain ⟨hInvB, hInvS, heq, hrej, htr, hnofull⟩ :=
    run_conservation ops OrderBook.init 0 hpos SideInv_init SideInv_init
  have hab : activeQty (run OrderBook.init 0 ops).book.buy
      = totalQty (run OrderBook.init 0 ops).book.buy :=
    activeQty_eq_totalQty _ hInvB.2.1
  have has : activeQty (run OrderBook.init 0 ops).book.sell
      = totalQty (run OrderBook.init 0 ops).book.sell :=
    activeQty_eq_totalQty _ hInvS.2.1
  have hinit1 : totalQty OrderBook.init.buy = 0 := by decide
  have hinit2 : totalQty OrderBook.init.sell = 0 := by decide
  constructor
  · rw [hab, has]
    omega
  · intro hmem
    rw [hab, has]
    have h0 := hnofull hmem
    omega

def opsC7w : List BookOp := [BookOp.addBuy 30 100, BookOp.addSell 50 90, BookOp.matchB]

/-- Witness for the amended C7 on a partial-fill run with no rejection. -/
theorem conservation_of_quantity_witness :
    (tradedSum (run OrderBook.init 0 opsC7w).trades
        + activeQty (run OrderBook.init 0 opsC7w).book.buy
        + activeQty (run OrderBook.init 0 opsC7w).book.sell
      ≤ submittedQty opsC7w) ∧
    (AddResult.bookFull ∉ (run OrderBook.init 0 opsC7w).results →
      2 * tradedSum (run OrderBook.init 0 opsC7w).trades
          + activeQty (run OrderBook.init 0 opsC7w).book.buy
          + activeQty (run OrderBook.init 0 opsC7w).book.sell
        = submittedQty opsC7w) :=
  conservation_of_quantity opsC7w (by decide)

end StockMarket
